import Mathlib

/-!
Verification of `scripts/check_coverage.py` (endpoint-coverage checker).

The script is embedded shallowly:
* JSON values are modelled by the inductive `JValue`, with Python truthiness
  as `jTruthy`.
* `parse_openapi` consumes the `paths` mapping of the specification document
  as an association list `(path, (method, detail) list) list`, mirroring the
  insertion-ordered iteration of Python dicts.
* The regex-based scanner (`PATH_PATTERN` / `DOC_PATH_PATTERN` plus the loop
  in `scan_services`) is embedded as an explicit left-to-right scanner over
  the file's characters; each regex alternative becomes a matcher that
  reproduces the backtracking behaviour of the concrete pattern.
* `match_endpoint` embeds the exact pipeline of the source: Python
  `re.escape`, the substitution `re.sub(r"\x7b[^}]+\x7d" escaped with
  backslashes, "\x7b[^}]+\x7d", ...)`, the (no-op) `str.replace`, and
  matching of the resulting anchored pattern against every implemented path.
* The classification / aggregation part of `main` (lines 179-197) is the
  pure function `computeCoverage`; the threshold gate (lines 235-242) is
  `mainExitCode`.

All definitions are structural recursions (fuel is used where the Python
loop advances by a computed amount; the fuel bound is always sufficient
because every iteration consumes at least one character), so every function
evaluates inside the kernel.
-/

namespace CheckCoverage

/-! ### JSON values and Python truthiness -/

/-- JSON values as produced by `json.load`.  Numbers are modelled as
integers (the spec's `deprecated` values are booleans; numeric truthiness
only needs `≠ 0`). -/
inductive JValue where
  | null
  | bool (b : Bool)
  | num (n : Int)
  | str (s : String)
  | arr (elems : List JValue)
  | obj (fields : List (String × JValue))

/-- Python truthiness (`bool(x)`) on JSON values. -/
def jTruthy : JValue → Bool
  | .null => false
  | .bool b => b
  | .num n => n != 0
  | .str s => s != ""
  | .arr [] => false
  | .arr (_ :: _) => true
  | .obj [] => false
  | .obj (_ :: _) => true

/-- `dict.get key` on a JSON object.  `json.load` keeps one value per key,
so first-match lookup on the association list is faithful. -/
def jGet (fields : List (String × JValue)) (key : String) : Option JValue :=
  match fields with
  | [] => none
  | (k, v) :: rest => if k == key then some v else jGet rest key

/-! ### 1. parse_openapi -/

/-- `HTTP_METHODS` from the script. -/
def HTTP_METHODS : List String :=
  ["get", "post", "put", "patch", "delete", "head", "options"]

/-- One endpoint descriptor, as built by `parse_openapi`. -/
structure Endpoint where
  method : String
  path : String
  operation_id : JValue
  deprecated : Bool

/-- `parse_openapi`: iterate `spec["paths"].items()`, and for each path its
per-method operations; skip method keys outside `HTTP_METHODS`
(case-insensitively) and non-dict operation values; build descriptors by
appending, as the Python nested `for` loops do. -/
def parse_openapi (paths : List (String × List (String × JValue))) : List Endpoint :=
  paths.foldl (fun acc pm =>
    pm.2.foldl (fun acc2 md =>
      if !(HTTP_METHODS.contains md.1.toLower) then acc2
      else
        match md.2 with
        | JValue.obj fields =>
            acc2 ++ [{ method := md.1.toUpper
                       path := pm.1
                       operation_id := (jGet fields "operationId").getD (JValue.str "")
                       deprecated := jTruthy ((jGet fields "deprecated").getD (JValue.bool false)) }]
        | _ => acc2) acc) []

/-! ### 2. The scanner -/

/-- `normalise_path`: `raw.split("?")[0]` — everything before the first `?`. -/
def normalise_path (raw : String) : String :=
  String.mk (raw.data.takeWhile (fun c => c != '?'))

/-- ASCII whitespace recognised by the regex class `\s` (the source files
are ASCII, so the additional Unicode whitespace accepted by Python is
irrelevant). -/
def pyWS (c : Char) : Bool :=
  c == ' ' || c == '\t' || c == '\n' || c == '\r' || c == Char.ofNat 11 || c == Char.ofNat 12

/-- Greedy `\s*`. -/
def dropWS (cs : List Char) : List Char := cs.dropWhile pyWS

/-- Greedy `\s+` (at least one whitespace character). -/
def dropWS1 (cs : List Char) : Option (List Char) :=
  match cs with
  | c :: cs' => if pyWS c then some (cs'.dropWhile pyWS) else none
  | [] => none

/-- Match a literal word at the head of the input. -/
def eatLit (w : String) (cs : List Char) : Option (List Char) :=
  if w.data.isPrefixOf cs then some (cs.drop w.length) else none

/-- Match `"([^"]+)"`: an opening quote, a nonempty run of non-quote
characters (the capture), and the closing quote. -/
def quotedBody (cs : List Char) : Option (String × List Char) :=
  match cs with
  | '"' :: cs' =>
    match cs'.takeWhile (fun c => c != '"'), cs'.dropWhile (fun c => c != '"') with
    | [], _ => none
    | body, '"' :: rest => some (String.mk body, rest)
    | _, _ => none
  | _ => none

/-- Match `\s*\(\s*"([^"]+)"` (the tail shared by the call-site and
`format!` alternatives of `PATH_PATTERN`). -/
def callTail (cs : List Char) : Option (String × List Char) :=
  match dropWS cs with
  | '(' :: cs' => quotedBody (dropWS cs')
  | _ => none

/-- The method names of the first `PATH_PATTERN` alternative, in the order
they appear in the regex (regex alternation tries them left to right and
backtracks into the next name when the continuation fails, which is what
trying each name with its full continuation reproduces). -/
def METHOD_NAMES : List String :=
  ["get", "post", "post_bytes", "post_stream", "delete", "delete_json",
   "delete_with_body", "patch", "put", "post_multipart", "post_multipart_bytes",
   "post_multipart_stream", "get_bytes"]

/-- Try each method name with the shared continuation, in order. -/
def tryNames : List String → List Char → Option (String × List Char)
  | [], _ => none
  | nm :: nms, cs =>
    match (eatLit nm cs).bind callTail with
    | some r => some r
    | none => tryNames nms cs

/-- Alternative 1 of `PATH_PATTERN`:
`\.(?:get|post|...|get_bytes)\s*\(\s*"([^"]+)"`. -/
def alt1 : List Char → Option (String × List Char)
  | '.' :: cs => tryNames METHOD_NAMES cs
  | _ => none

/-- Alternative 2 of `PATH_PATTERN`: `format!\s*\(\s*"([^"]+)"`. -/
def alt2 (cs : List Char) : Option (String × List Char) :=
  (eatLit "format!" cs).bind callTail

/-- The tail of alternative 3 after `path`: `\s*=\s*"([^"]+)"`. -/
def eqTail (cs : List Char) : Option (String × List Char) :=
  match dropWS cs with
  | '=' :: cs' => quotedBody (dropWS cs')
  | _ => none

/-- Alternative 3 of `PATH_PATTERN`:
`(?:let\s+(?:mut\s+)?path\s*=\s*)"([^"]+)"`.  The optional greedy group
`(?:mut\s+)?` is tried first and abandoned when the continuation fails. -/
def alt3 (cs : List Char) : Option (String × List Char) :=
  (eatLit "let" cs).bind fun cs1 =>
  (dropWS1 cs1).bind fun cs2 =>
    let cont := fun csx => (eatLit "path" csx).bind eqTail
    match (eatLit "mut" cs2).bind dropWS1 with
    | some cs2' => (cont cs2').orElse (fun _ => cont cs2)
    | none => cont cs2

/-- Alternative 4 of `PATH_PATTERN` (broad fallback): `"(/v1/[^"]*)"`. -/
def alt4 : List Char → Option (String × List Char)
  | '"' :: cs =>
    match eatLit "/v1/" cs with
    | some cs' =>
      match cs'.dropWhile (fun c => c != '"') with
      | '"' :: rest =>
          some ("/v1/" ++ String.mk (cs'.takeWhile (fun c => c != '"')), rest)
      | _ => none
    | none => none
  | _ => none

/-- The full alternation of `PATH_PATTERN`, alternatives in source order. -/
def pathAlts (cs : List Char) : Option (String × List Char) :=
  (alt1 cs).orElse fun _ => (alt2 cs).orElse fun _ => (alt3 cs).orElse fun _ => alt4 cs

/-- `PATH_PATTERN.finditer`: try the alternation at every position, left to
right; on a match emit the participating capture group and resume after the
match.  Every match consumes at least one character, so fuel equal to the
length of the text never runs out. -/
def pathFindAux : Nat → List Char → List String
  | 0, _ => []
  | _ + 1, [] => []
  | n + 1, c :: cs =>
    match pathAlts (c :: cs) with
    | some (cap, rest) => cap :: pathFindAux n rest
    | none => pathFindAux n cs

/-- All captures of `PATH_PATTERN` over a file's text. -/
def pathCaptures (content : String) : List String :=
  pathFindAux content.data.length content.data

/-- The HTTP verbs of `DOC_PATH_PATTERN`, in regex order. -/
def DOC_VERBS : List String := ["GET", "POST", "PUT", "PATCH", "DELETE"]

/-- The backtick character (used by `DOC_PATH_PATTERN`). -/
def btick : Char := Char.ofNat 96

/-- After the verb: `\s+(/v\d+/[^...]+)` up to the closing backtick; the
capture is `/v` ++ digits ++ `/` ++ body.  Python's `\d` is ASCII on this
input. -/
def docTail (cs : List Char) : Option (String × List Char) :=
  (dropWS1 cs).bind fun cs1 =>
    match cs1 with
    | '/' :: 'v' :: cs2 =>
      match cs2.takeWhile Char.isDigit, cs2.dropWhile Char.isDigit with
      | [], _ => none
      | ds, '/' :: cs3 =>
        match cs3.takeWhile (fun c => c != btick), cs3.dropWhile (fun c => c != btick) with
        | [], _ => none
        | body, c :: rest =>
            if c == btick then
              some ("/v" ++ String.mk ds ++ "/" ++ String.mk body, rest)
            else none
        | _, _ => none
      | _, _ => none
    | _ => none

/-- Try the doc verbs in order, each followed by `docTail`. -/
def tryVerbs : List String → List Char → Option (String × List Char)
  | [], _ => none
  | v :: vs, cs =>
    match (eatLit v cs).bind docTail with
    | some r => some r
    | none => tryVerbs vs cs

/-- `DOC_PATH_PATTERN` at one position: a backtick, a verb, then `docTail`. -/
def docAlt : List Char → Option (String × List Char)
  | c :: cs => if c == btick then tryVerbs DOC_VERBS cs else none
  | [] => none

/-- `DOC_PATH_PATTERN.finditer`, like `pathFindAux`. -/
def docFindAux : Nat → List Char → List String
  | 0, _ => []
  | _ + 1, [] => []
  | n + 1, c :: cs =>
    match docAlt (c :: cs) with
    | some (cap, rest) => cap :: docFindAux n rest
    | none => docFindAux n cs

/-- All captures of `DOC_PATH_PATTERN` over a file's text. -/
def docCaptures (content : String) : List String :=
  docFindAux content.data.length content.data

/-- `str.startswith` (via the character lists). -/
def pyStartsWith (s pre : String) : Bool := pre.data.isPrefixOf s.data

/-- `str.endswith` (via the character lists). -/
def pyEndsWith (s suf : String) : Bool := suf.data.isSuffixOf s.data

/-- `set.add`: append when not already present. -/
def insertSet (acc : List String) (s : String) : List String :=
  if s ∈ acc then acc else acc ++ [s]

/-- `scan_services`: for every `*.rs` file except `mod.rs`, add the
normalised capture of every `PATH_PATTERN` match whose raw capture is
nonempty and starts with `/v`, and the normalised capture of every
`DOC_PATH_PATTERN` match that is nonempty.  A directory is a list of
`(file name, file text)` pairs. -/
def scan_services (files : List (String × String)) : List String :=
  files.foldl (fun acc file =>
    if file.1 == "mod.rs" || !(pyEndsWith file.1 ".rs") then acc
    else
      let acc1 := (pathCaptures file.2).foldl (fun a raw =>
        if raw != "" && pyStartsWith raw "/v" then insertSet a (normalise_path raw) else a) acc
      (docCaptures file.2).foldl (fun a raw =>
        if raw != "" then insertSet a (normalise_path raw) else a) acc1) []

/-! ### 3. match_endpoint

The source builds, for a descriptor path with no exact match,

  pattern = re.sub(r"\x5c\x7b[^}]+\x5c\x7d", r"\x7b[^}]+\x7d", re.escape(normalised))
  pattern = pattern.replace(same, same)        -- a no-op
  regex   = re.compile("^" + pattern + "$")
  return any(regex.match(p) for p in implemented)

`re.escape` puts a backslash before every regex metacharacter, so in the
escaped text every brace is preceded by a backslash.  The substitution then
rewrites each `\x7b body \x7d` region (the body is the maximal run of
non-`\x7d` characters, always nonempty because of the escaping backslash)
into the text `\x7b[^}]+\x7d` of the replacement (its leading brace joins
the surviving backslash of the escape).  Consequently the final pattern is
a sequence of backslash-escaped literals and `[^}]+` classes, which
`tokenize` turns into a token list and `rmatch` matches with full
backtracking.  `^p$`-matching accepts the whole candidate or the candidate
without a single trailing newline (Python `$`). -/

/-- The characters escaped by Python `re.escape` (CPython ≥ 3.7):
`()[]\x7b\x7d?*+-|^$\.&~#` and ASCII whitespace. -/
def pySpecial : List Char :=
  ['(', ')', '[', ']', '{', '}', '?', '*', '+', '-', '|', '^', '$', '\\',
   '.', '&', '~', '#', ' ', '\t', '\n', '\r', Char.ofNat 11, Char.ofNat 12]

/-- Escape one character as `re.escape` does. -/
def escape1 (c : Char) : List Char :=
  if c ∈ pySpecial then ['\\', c] else [c]

/-- Python `re.escape` on a character list. -/
def reEscape (cs : List Char) : List Char := cs.flatMap escape1

/-- The text of the replacement `r"\x7b[^}]+\x7d"` (without backslashes):
the seven characters brace, `[`, `^`, brace-close, `]`, `+`, brace-close. -/
def phRepl : List Char := ['{', '[', '^', '}', ']', '+', '}']

/-- The 9-character pattern/replacement string `r"\\\x7b[^}]+\\\x7d"` used
by the no-op `str.replace` call in the source. -/
def noopPat : List Char := ['\\', '{', '[', '^', '}', ']', '+', '\\', '}']

/-- One pass of `re.sub(r"\\\x7b[^}]+\\\x7d", repl, ·)` as a left-to-right
automaton.  `none` is the normal scanning state; `some acc` means we are
inside a candidate `\x7b...\x7d` region opened by a brace, with `acc` the
(reversed) body read so far.  On a closing brace with nonempty body the
match succeeds and `phRepl` is emitted; an immediate closing brace fails
(the body class `[^}]+` needs at least one character) and both braces are
emitted literally; at end of input the pending text is emitted unchanged. -/
def subPHA : List Char → Option (List Char) → List Char
  | [], none => []
  | [], some acc => '{' :: acc.reverse
  | c :: cs, none =>
      if c = '{' then subPHA cs (some []) else c :: subPHA cs none
  | c :: cs, some acc =>
      if c = '}' then
        if acc.isEmpty then '{' :: '}' :: subPHA cs none
        else phRepl ++ subPHA cs none
      else subPHA cs (some (c :: acc))

/-- `re.sub(r"\\\x7b[^}]+\\\x7d", r"\x7b[^}]+\x7d", s)`. -/
def subPlaceholders (cs : List Char) : List Char := subPHA cs none

/-- Python `str.replace` (left to right, non-overlapping).  Fuel equal to
the length of the subject suffices: each step consumes at least one
character (when the pattern is nonempty; on empty fuel the rest is
returned unchanged, which also makes the self-replacement lemma exact). -/
def pyReplaceAux : Nat → List Char → List Char → List Char → List Char
  | 0, _, _, s => s
  | _ + 1, _, _, [] => []
  | n + 1, pat, repl, c :: cs =>
    if !pat.isEmpty && pat.isPrefixOf (c :: cs) then
      repl ++ pyReplaceAux n pat repl ((c :: cs).drop pat.length)
    else c :: pyReplaceAux n pat repl cs

/-- Python `str.replace pat repl` on character lists. -/
def pyReplace (pat repl s : List Char) : List Char := pyReplaceAux s.length pat repl s

/-- Tokens of the generated pattern: escaped/plain literals and the class
`[^}]+`. -/
inductive RTok where
  | lit (c : Char)
  | wild
deriving DecidableEq, Repr

/-- The five characters `[^}]+` of the wildcard class. -/
def wildMark : List Char := ['^', '}', ']', '+']

/-- Read the generated pattern back into tokens: `\c` is the literal `c`, a
`[` always begins `[^}]+` (the only unescaped `[` the pipeline produces),
and every other character stands for itself (in the reachable patterns all
remaining regex metacharacters are escaped; an unescaped `\x7d` is literal
in Python regexes).  Unreachable shapes give `none`. -/
def tokenize : List Char → Option (List RTok)
  | [] => some []
  | ['\\'] => none
  | '\\' :: d :: cs => (tokenize cs).map (fun ts => RTok.lit d :: ts)
  | '[' :: '^' :: '}' :: ']' :: '+' :: cs => (tokenize cs).map (fun ts => RTok.wild :: ts)
  | '[' :: _ => none
  | c :: cs => (tokenize cs).map (fun ts => RTok.lit c :: ts)

/-- Match a token list against a character list, anchored at both ends;
`wild` is `[^}]+`: one or more characters other than `\x7d` (backtracking
over the split, which is equivalent to the greedy engine for a boolean
result). -/
def rmatch : List RTok → List Char → Bool
  | [], [] => true
  | [], _ :: _ => false
  | RTok.lit _ :: _, [] => false
  | RTok.lit c :: ts, d :: ds => c == d && rmatch ts ds
  | RTok.wild :: _, [] => false
  | RTok.wild :: ts, d :: ds => d != '}' && (rmatch ts ds || rmatch (RTok.wild :: ts) ds)

/-- `re.compile("^" + p + "$").match(s)`: the pattern must cover the whole
string, or the whole string except one trailing newline (Python `$`). -/
def pyAnchMatch (ts : List RTok) (s : List Char) : Bool :=
  rmatch ts s ||
    (match s.getLast? with
     | some c => c == '\n' && rmatch ts s.dropLast
     | none => false)

/-- `normalise_openapi_path` — the identity (the source returns its
argument unchanged). -/
def normalise_openapi_path (path : String) : String := path

/-- `match_endpoint`: exact membership first, then the structural regex
fallback described above. -/
def match_endpoint (ep_path : String) (implemented : List String) : Bool :=
  let normalised := normalise_openapi_path ep_path
  if implemented.contains normalised then true
  else
    match tokenize (pyReplace noopPat noopPat (subPlaceholders (reEscape normalised.data))) with
    | some ts => implemented.any (fun p => pyAnchMatch ts p.data)
    | none => false

/-- The tokens the pipeline associates to a descriptor template, described
directly on the template: every region from a `\x7b` to the first later
`\x7d` (body arbitrary non-`\x7d` characters, possibly empty) becomes
`lit \x7b, wild, lit \x7d`; every other character becomes its literal;
a `\x7b` with no later `\x7d` stays literal.  (Proved equal to the
escape/substitute/tokenize pipeline below.) -/
def templateToksA : List Char → Option (List Char) → List RTok
  | [], none => []
  | [], some acc => RTok.lit '{' :: acc.reverse.map RTok.lit
  | c :: cs, none =>
      if c = '{' then templateToksA cs (some [])
      else RTok.lit c :: templateToksA cs none
  | c :: cs, some acc =>
      if c = '}' then RTok.lit '{' :: RTok.wild :: RTok.lit '}' :: templateToksA cs none
      else templateToksA cs (some (c :: acc))

/-- Token list of a descriptor template. -/
def templateToks (cs : List Char) : List RTok := templateToksA cs none

/-! ### 4. Classification, aggregation, threshold (main, lines 179-242) -/

/-- `EXCLUDED_PATHS` from the script. -/
def EXCLUDED_PATHS : List String := ["/docs"]

/-- The data computed by `main` before reporting. -/
structure CoverageResult where
  active : List Endpoint
  deprecatedEps : List Endpoint
  covered : List Endpoint
  missing : List Endpoint
  totalActive : Nat
  coveredCount : Nat
  pct : ℚ

/-- The pure classification/aggregation core of `main`: split off
deprecated descriptors, drop excluded paths from the active list, classify
each active descriptor with `match_endpoint`, and compute the percentage
with the `if total_active` guard.  (Rationals model Python's exact
`covered / total * 100` formula.) -/
def computeCoverage (endpoints : List Endpoint) (implemented : List String) : CoverageResult :=
  let active0 := endpoints.filter (fun ep => !ep.deprecated)
  let deprecatedL := endpoints.filter (fun ep => ep.deprecated)
  let active := active0.filter (fun ep => !(EXCLUDED_PATHS.contains ep.path))
  let covered := active.filter (fun ep => match_endpoint ep.path implemented)
  let missing := active.filter (fun ep => !(match_endpoint ep.path implemented))
  { active := active
    deprecatedEps := deprecatedL
    covered := covered
    missing := missing
    totalActive := active.length
    coveredCount := covered.length
    pct := if active.length ≠ 0 then (covered.length : ℚ) / (active.length : ℚ) * 100 else 0 }

/-- The exit decision of `main`: status 1 iff the percentage is strictly
below the threshold (`COVERAGE_THRESHOLD`, default `0`). -/
def mainExitCode (endpoints : List Endpoint) (implemented : List String) (threshold : ℚ) : Nat :=
  if (computeCoverage endpoints implemented).pct < threshold then 1 else 0

/-! ### Spec-side definitions (refinement targets) -/

/-- A token of the comparison pattern exactly as claim C1 words it: a
literal character, or a wildcard standing for one path segment value. -/
inductive STok where
  | lit (c : Char)
  | seg

/-- Modelled from the spec: build the claimed comparison pattern from the
descriptor's path template — every `\x7b...\x7d` placeholder region becomes
a segment wildcard, all other characters are escaped literally. -/
def specToksA : List Char → Option (List Char) → List STok
  | [], none => []
  | [], some acc => STok.lit '{' :: acc.reverse.map STok.lit
  | c :: cs, none =>
      if c = '{' then specToksA cs (some [])
      else STok.lit c :: specToksA cs none
  | c :: cs, some acc =>
      if c = '}' then STok.seg :: specToksA cs none
      else specToksA cs (some (c :: acc))

/-- Modelled from the spec: the wildcard matches any nonempty non-slash
segment value; all other characters match literally; the match is anchored
at both ends. -/
def smatch : List STok → List Char → Bool
  | [], [] => true
  | [], _ :: _ => false
  | STok.lit _ :: _, [] => false
  | STok.lit c :: ts, d :: ds => c == d && smatch ts ds
  | STok.seg :: _, [] => false
  | STok.seg :: ts, d :: ds => d != '/' && (smatch ts ds || smatch (STok.seg :: ts) ds)

/-- Modelled from the spec: a descriptor with no exact match is covered iff
some member of the implemented set fully matches the claimed pattern. -/
def specStructuralCovered (t : String) (impl : List String) : Bool :=
  impl.any (fun p => smatch (specToksA t.data none) p.data)

/-- A scanned path as the amended invariant of C4 describes it: it starts
with `/v` and carries no query string. -/
def goodPath (s : String) : Prop :=
  pyStartsWith s "/v" = true ∧ '?' ∉ s.data

/-- Modelled from the spec (§4.1): a descriptor is produced exactly for a
(path, method) pair whose method key is in the fixed HTTP-verb enumeration
(compared case-insensitively) and whose operation value is a structured
object; the method is upper-cased, `operationId` defaults to the empty
string, and `deprecated` defaults to false and is coerced to boolean. -/
def descriptorOf (path : String) (md : String × JValue) : Option Endpoint :=
  if HTTP_METHODS.contains md.1.toLower then
    match md.2 with
    | JValue.obj fields =>
        some { method := md.1.toUpper
               path := path
               operation_id := (jGet fields "operationId").getD (JValue.str "")
               deprecated := jTruthy ((jGet fields "deprecated").getD (JValue.bool false)) }
    | _ => none
  else none

/-- The loader as the spec describes it: one `filterMap` per path entry. -/
def specLoader (paths : List (String × List (String × JValue))) : List Endpoint :=
  paths.flatMap (fun pm => pm.2.filterMap (descriptorOf pm.1))

/-! ### Lemmas about the match_endpoint pipeline -/

theorem pyReplaceAux_self : ∀ (n : Nat) (pat s : List Char), pyReplaceAux n pat pat s = s := by
  intro n
  induction n with
  | zero => intro pat s; rfl
  | succ n ih =>
    intro pat s
    match s with
    | [] => rfl
    | c :: cs =>
      simp only [pyReplaceAux]
      by_cases h : (!pat.isEmpty && pat.isPrefixOf (c :: cs)) = true
      · rw [if_pos h, ih]
        have hp : pat <+: (c :: cs) :=
          List.isPrefixOf_iff_prefix.mp ((Bool.and_eq_true _ _).mp h).2
        exact List.prefix_iff_eq_append.mp hp
      · rw [if_neg h, ih]

/-- The no-op `str.replace(x, x)` of the source leaves the pattern text
unchanged. -/
theorem pyReplace_self (pat s : List Char) : pyReplace pat pat s = s :=
  pyReplaceAux_self _ _ _

theorem reEscape_cons (c : Char) (cs : List Char) :
    reEscape (c :: cs) = escape1 c ++ reEscape cs := by
  simp [reEscape]

theorem reEscape_append (l1 l2 : List Char) :
    reEscape (l1 ++ l2) = reEscape l1 ++ reEscape l2 := by
  simp [reEscape]

theorem escape1_special {c : Char} (h : c ∈ pySpecial) : escape1 c = ['\\', c] := by
  simp [escape1, h]

theorem escape1_plain {c : Char} (h : c ∉ pySpecial) : escape1 c = [c] := by
  simp [escape1, h]

theorem tokenize_esc (c : Char) (cs : List Char) :
    tokenize ('\\' :: c :: cs) = (tokenize cs).map (fun ts => RTok.lit c :: ts) := rfl

theorem tokenize_plain {c : Char} (h1 : c ≠ '\\') (h2 : c ≠ '[') (cs : List Char) :
    tokenize (c :: cs) = (tokenize cs).map (fun ts => RTok.lit c :: ts) := by
  rw [tokenize.eq_def]
  split
  · simp_all
  · simp_all
  · simp_all
  · simp_all
  · simp_all
  · rename_i h
    injection h with hh ht
    subst hh; subst ht
    rfl

theorem tokenize_wild (cs : List Char) :
    tokenize ('[' :: '^' :: '}' :: ']' :: '+' :: cs) =
      (tokenize cs).map (fun ts => RTok.wild :: ts) := rfl

/-- Escaping produces only literal tokens. -/
theorem tokenize_reEscape : ∀ l : List Char, tokenize (reEscape l) = some (l.map RTok.lit) := by
  intro l
  induction l with
  | nil => rfl
  | cons c cs ih =>
    rw [reEscape_cons]
    by_cases hs : c ∈ pySpecial
    · rw [escape1_special hs, List.cons_append, List.cons_append, List.nil_append,
        tokenize_esc, ih]
      rfl
    · have hb : c ≠ '\\' := fun h => hs (h ▸ (by decide : '\\' ∈ pySpecial))
      have hl : c ≠ '[' := fun h => hs (h ▸ (by decide : '[' ∈ pySpecial))
      rw [escape1_plain hs, List.cons_append, List.nil_append, tokenize_plain hb hl, ih]
      rfl

theorem subPHA_none_brace (cs : List Char) : subPHA ('{' :: cs) none = subPHA cs (some []) := by
  simp [subPHA]

theorem subPHA_none_plain {c : Char} (h : c ≠ '{') (cs : List Char) :
    subPHA (c :: cs) none = c :: subPHA cs none := by
  simp [subPHA, h]

theorem subPHA_some_close {acc : List Char} (h : acc.isEmpty = false) (cs : List Char) :
    subPHA ('}' :: cs) (some acc) = phRepl ++ subPHA cs none := by
  simp [subPHA, h]

theorem subPHA_some_plain {c : Char} (h : c ≠ '}') (cs : List Char) (acc : List Char) :
    subPHA (c :: cs) (some acc) = subPHA cs (some (c :: acc)) := by
  simp [subPHA, h]

/-- Core correspondence: escaping a template, substituting the placeholder
regions, and reading the pattern back as tokens yields exactly the direct
token reading `templateToksA` of the template.  The second conjunct covers
the in-placeholder state: the escaping backslash of the opening brace is
still pending, and the accumulated escaped body mirrors the accumulated
template body. -/
theorem tokenize_subPHA :
    ∀ (n : Nat) (cs : List Char), cs.length ≤ n →
      (tokenize (subPHA (reEscape cs) none) = some (templateToksA cs none)) ∧
      (∀ accT accE : List Char, accE.reverse = reEscape accT.reverse →
        tokenize ('\\' :: subPHA (reEscape cs) (some accE)) =
          some (templateToksA cs (some accT))) := by
  intro n
  induction n with
  | zero =>
    intro cs hcs
    have hnil : cs = [] := List.length_eq_zero.mp (Nat.le_zero.mp hcs)
    subst hnil
    refine ⟨rfl, ?_⟩
    intro accT accE hinv
    show tokenize ('\\' :: '{' :: accE.reverse) = _
    rw [tokenize_esc, hinv, tokenize_reEscape]
    rfl
  | succ n ih =>
    intro cs hcs
    match cs with
    | [] =>
      refine ⟨rfl, ?_⟩
      intro accT accE hinv
      show tokenize ('\\' :: '{' :: accE.reverse) = _
      rw [tokenize_esc, hinv, tokenize_reEscape]
      rfl
    | c :: cs' =>
      have hlen : cs'.length ≤ n := Nat.le_of_succ_le_succ hcs
      constructor
      · -- normal scanning state
        by_cases hc : c = '{'
        · subst hc
          rw [reEscape_cons, escape1_special (by decide), List.cons_append,
            List.cons_append, List.nil_append,
            subPHA_none_plain (by decide), subPHA_none_brace]
          have := (ih cs' hlen).2 [] [] rfl
          rw [show tokenize ('\\' :: subPHA (reEscape cs') (some [])) =
              some (templateToksA cs' (some [])) from this]
          simp [templateToksA]
        · by_cases hs : c ∈ pySpecial
          · have hb : ('\\' : Char) ≠ '{' := by decide
            rw [reEscape_cons, escape1_special hs, List.cons_append, List.cons_append,
              List.nil_append, subPHA_none_plain hb, subPHA_none_plain hc,
              tokenize_esc, (ih cs' hlen).1]
            simp [templateToksA, hc]
          · have hb : c ≠ '\\' := fun h => hs (h ▸ (by decide : '\\' ∈ pySpecial))
            have hl : c ≠ '[' := fun h => hs (h ▸ (by decide : '[' ∈ pySpecial))
            rw [reEscape_cons, escape1_plain hs, List.cons_append, List.nil_append,
              subPHA_none_plain hc, tokenize_plain hb hl, (ih cs' hlen).1]
            simp [templateToksA, hc]
      · -- inside a placeholder
        intro accT accE hinv
        by_cases hc : c = '}'
        · subst hc
          rw [reEscape_cons, escape1_special (by decide), List.cons_append,
            List.cons_append, List.nil_append,
            subPHA_some_plain (by decide), subPHA_some_close (by rfl)]
          show tokenize ('\\' :: (phRepl ++ subPHA (reEscape cs') none)) = _
          rw [show ('\\' :: (phRepl ++ subPHA (reEscape cs') none)) =
            '\\' :: '{' :: '[' :: '^' :: '}' :: ']' :: '+' :: '}' ::
              subPHA (reEscape cs') none from rfl]
          rw [tokenize_esc, tokenize_wild, tokenize_plain (by decide) (by decide),
            (ih cs' hlen).1]
          simp [templateToksA]
        · by_cases hs : c ∈ pySpecial
          · have hb : ('\\' : Char) ≠ '}' := by decide
            rw [reEscape_cons, escape1_special hs, List.cons_append, List.cons_append,
              List.nil_append, subPHA_some_plain hb, subPHA_some_plain hc]
            have hinv' : (c :: '\\' :: accE).reverse = reEscape ((c :: accT).reverse) := by
              rw [List.reverse_cons, List.reverse_cons, List.reverse_cons, hinv,
                reEscape_append]
              simp [List.append_assoc, reEscape, escape1_special hs]
            rw [(ih cs' hlen).2 (c :: accT) (c :: '\\' :: accE) hinv']
            simp [templateToksA, hc]
          · have hinv' : (c :: accE).reverse = reEscape ((c :: accT).reverse) := by
              rw [List.reverse_cons, List.reverse_cons, hinv, reEscape_append]
              simp [reEscape, escape1_plain hs]
            rw [reEscape_cons, escape1_plain hs, List.cons_append, List.nil_append,
              subPHA_some_plain hc, (ih cs' hlen).2 (c :: accT) (c :: accE) hinv']
            simp [templateToksA, hc]

/-- The complete pattern construction of `match_endpoint`, read back as
tokens, is the direct token reading of the template. -/
theorem tokenize_pipeline (t : List Char) :
    tokenize (pyReplace noopPat noopPat (subPlaceholders (reEscape t))) =
      some (templateToks t) := by
  rw [pyReplace_self]
  exact (tokenize_subPHA t.length t (Nat.le_refl _)).1

/-- `match_endpoint` in closed form: exact membership, or an anchored match
of the template's token pattern against some implemented path. -/
theorem match_endpoint_spec (t : String) (impl : List String) :
    match_endpoint t impl =
      (impl.contains t || impl.any (fun p => pyAnchMatch (templateToks t.data) p.data)) := by
  have hz : match_endpoint t impl =
      (if impl.contains t = true then true
       else
         match tokenize (pyReplace noopPat noopPat (subPlaceholders (reEscape t.data))) with
         | some ts => impl.any fun p => pyAnchMatch ts p.data
         | none => false) := rfl
  rw [hz, tokenize_pipeline]
  by_cases h : impl.contains t = true
  · simp [h]
  · simp only [Bool.not_eq_true] at h
    simp [h]

/-! ### Lemmas about the scanner -/

theorem normalise_path_no_query (raw : String) : '?' ∉ (normalise_path raw).data := by
  intro hmem
  have h := List.mem_takeWhile_imp (p := fun c => c != '?') hmem
  simp at h

theorem startsWith_v_shape {raw : String} (h : pyStartsWith raw "/v" = true) :
    ∃ t, raw.data = '/' :: 'v' :: t := by
  have h' : (['/', 'v'] : List Char).isPrefixOf raw.data = true := h
  match hd : raw.data with
  | [] => rw [hd] at h'; simp [List.isPrefixOf] at h'
  | [c] => rw [hd] at h'; simp [List.isPrefixOf] at h'
  | c1 :: c2 :: t =>
    rw [hd] at h'
    simp only [List.isPrefixOf, Bool.and_eq_true, beq_iff_eq] at h'
    obtain ⟨h1, h2, -⟩ := h'
    exact ⟨t, by rw [← h1, ← h2]⟩

theorem shape_startsWith {r : String} (h : ∃ t, r.data = '/' :: 'v' :: t) :
    pyStartsWith r "/v" = true := by
  obtain ⟨t, ht⟩ := h
  show (['/', 'v'] : List Char).isPrefixOf r.data = true
  rw [ht]
  simp [List.isPrefixOf]

theorem normalise_path_keeps_v {raw : String} (h : pyStartsWith raw "/v" = true) :
    pyStartsWith (normalise_path raw) "/v" = true := by
  obtain ⟨t, ht⟩ := startsWith_v_shape h
  show (['/', 'v'] : List Char).isPrefixOf (raw.data.takeWhile fun c => c != '?') = true
  rw [ht, List.takeWhile_cons_of_pos (by decide), List.takeWhile_cons_of_pos (by decide)]
  simp [List.isPrefixOf]

theorem docTail_shape {cs : List Char} {cap : String} {rest : List Char}
    (h : docTail cs = some (cap, rest)) : ∃ t, cap.data = '/' :: 'v' :: t := by
  unfold docTail at h
  cases hws : dropWS1 cs with
  | none => rw [hws] at h; simp at h
  | some cs1 =>
    rw [hws] at h
    simp only [Option.some_bind] at h
    split at h
    · split at h
      · simp at h
      · split at h
        · simp at h
        · split at h
          · rw [Option.some.injEq, Prod.mk.injEq] at h
            obtain ⟨h1, -⟩ := h
            subst h1
            exact ⟨_, rfl⟩
          · simp at h
        · simp at h
      · simp at h
    · simp at h

theorem tryVerbs_shape : ∀ (vs : List String) (cs : List Char) (cap : String) (rest : List Char),
    tryVerbs vs cs = some (cap, rest) → ∃ t, cap.data = '/' :: 'v' :: t := by
  intro vs
  induction vs with
  | nil => intro cs cap rest h; simp [tryVerbs] at h
  | cons v vs ih =>
    intro cs cap rest h
    unfold tryVerbs at h
    split at h
    · rename_i r heq
      cases hel : eatLit v cs with
      | none => rw [hel] at heq; simp at heq
      | some cs' =>
        rw [hel] at heq
        simp only [Option.some_bind] at heq
        injection h with h'
        subst h'
        exact docTail_shape (by rw [heq])
    · exact ih cs cap rest h

theorem docAlt_shape {cs : List Char} {cap : String} {rest : List Char}
    (h : docAlt cs = some (cap, rest)) : ∃ t, cap.data = '/' :: 'v' :: t := by
  match cs with
  | [] => simp [docAlt] at h
  | c :: cs' =>
    rw [show docAlt (c :: cs') = if c == btick then tryVerbs DOC_VERBS cs' else none from rfl] at h
    split at h
    · exact tryVerbs_shape _ _ _ _ h
    · simp at h

theorem docFindAux_shape : ∀ (n : Nat) (cs : List Char) (s : String),
    s ∈ docFindAux n cs → ∃ t, s.data = '/' :: 'v' :: t := by
  intro n
  induction n with
  | zero => intro cs s hs; simp [docFindAux] at hs
  | succ n ih =>
    intro cs s hs
    match cs with
    | [] => simp [docFindAux] at hs
    | c :: cs' =>
      unfold docFindAux at hs
      cases hda : docAlt (c :: cs') with
      | none => rw [hda] at hs; exact ih cs' s hs
      | some pr =>
        obtain ⟨cap, rest⟩ := pr
        rw [hda] at hs
        have hs' : s ∈ cap :: docFindAux n rest := hs
        rcases List.mem_cons.mp hs' with h | h
        · subst h
          exact docAlt_shape hda
        · exact ih rest s h

theorem docCaptures_shape (content : String) (r : String) (hr : r ∈ docCaptures content) :
    ∃ t, r.data = '/' :: 'v' :: t :=
  docFindAux_shape _ _ r hr

theorem insertSet_good {acc : List String} {x : String}
    (hacc : ∀ s ∈ acc, goodPath s) (hx : goodPath x) :
    ∀ s ∈ insertSet acc x, goodPath s := by
  intro s hs
  unfold insertSet at hs
  by_cases hmem : x ∈ acc
  · rw [if_pos hmem] at hs; exact hacc s hs
  · rw [if_neg hmem] at hs
    rcases List.mem_append.mp hs with h | h
    · exact hacc s h
    · rw [List.mem_singleton.mp h]; exact hx

theorem pathFold_good : ∀ (caps : List String) (acc : List String),
    (∀ s ∈ acc, goodPath s) →
    ∀ s ∈ caps.foldl (fun a raw =>
        if raw != "" && pyStartsWith raw "/v" then insertSet a (normalise_path raw) else a) acc,
      goodPath s := by
  intro caps
  induction caps with
  | nil => intro acc hacc s hs; exact hacc s hs
  | cons raw caps ih =>
    intro acc hacc
    simp only [List.foldl_cons]
    apply ih
    by_cases hg : (raw != "" && pyStartsWith raw "/v") = true
    · rw [if_pos hg]
      exact insertSet_good hacc
        ⟨normalise_path_keeps_v ((Bool.and_eq_true _ _).mp hg).2, normalise_path_no_query raw⟩
    · rw [if_neg hg]; exact hacc

theorem docFold_good : ∀ (caps : List String),
    (∀ r ∈ caps, ∃ t, r.data = '/' :: 'v' :: t) →
    ∀ (acc : List String), (∀ s ∈ acc, goodPath s) →
    ∀ s ∈ caps.foldl (fun a raw => if raw != "" then insertSet a (normalise_path raw) else a) acc,
      goodPath s := by
  intro caps
  induction caps with
  | nil => intro _ acc hacc s hs; exact hacc s hs
  | cons raw caps ih =>
    intro hcaps acc hacc
    simp only [List.foldl_cons]
    apply ih (fun r hr => hcaps r (List.mem_cons_of_mem _ hr))
    by_cases hg : (raw != "") = true
    · rw [if_pos hg]
      exact insertSet_good hacc
        ⟨normalise_path_keeps_v (shape_startsWith (hcaps raw (List.mem_cons_self _ _))),
         normalise_path_no_query raw⟩
    · rw [if_neg hg]; exact hacc

theorem scan_fold_good : ∀ (files : List (String × String)) (acc : List String),
    (∀ s ∈ acc, goodPath s) →
    ∀ s ∈ files.foldl (fun acc file =>
      if file.1 == "mod.rs" || !(pyEndsWith file.1 ".rs") then acc
      else
        let acc1 := (pathCaptures file.2).foldl (fun a raw =>
          if raw != "" && pyStartsWith raw "/v" then insertSet a (normalise_path raw) else a) acc
        (docCaptures file.2).foldl (fun a raw =>
          if raw != "" then insertSet a (normalise_path raw) else a) acc1) acc,
      goodPath s := by
  intro files
  induction files with
  | nil => intro acc hacc s hs; exact hacc s hs
  | cons f fs ih =>
    intro acc hacc
    simp only [List.foldl_cons]
    apply ih
    by_cases hskip : (f.1 == "mod.rs" || !(pyEndsWith f.1 ".rs")) = true
    · rw [if_pos hskip]; exact hacc
    · rw [if_neg hskip]
      exact docFold_good _ (fun r hr => docCaptures_shape f.2 r hr) _
        (pathFold_good _ _ hacc)

/-- Every path the scanner returns starts with `/v` and has no `?`. -/
theorem scan_services_good (files : List (String × String)) (s : String)
    (h : s ∈ scan_services files) : goodPath s :=
  scan_fold_good files [] (by simp) s h

/-! ### Lemmas relating the loader to its spec-side description -/

theorem inner_foldl_eq (path : String) :
    ∀ (mds : List (String × JValue)) (acc : List Endpoint),
      mds.foldl (fun acc2 md =>
        if !(HTTP_METHODS.contains md.1.toLower) then acc2
        else
          match md.2 with
          | JValue.obj fields =>
              acc2 ++ [{ method := md.1.toUpper
                         path := path
                         operation_id := (jGet fields "operationId").getD (JValue.str "")
                         deprecated := jTruthy ((jGet fields "deprecated").getD (JValue.bool false)) }]
          | _ => acc2) acc
      = acc ++ mds.filterMap (descriptorOf path) := by
  intro mds
  induction mds with
  | nil => intro acc; simp
  | cons md mds ih =>
    intro acc
    simp only [List.foldl_cons, List.filterMap_cons]
    rw [ih]
    by_cases hm : md.1.toLower ∈ HTTP_METHODS
    · have hmc : HTTP_METHODS.contains md.1.toLower = true := by simpa using hm
      cases hd : md.2 <;> simp [hm, hmc, hd, descriptorOf, List.append_assoc]
    · have hmc : HTTP_METHODS.contains md.1.toLower = false := by simpa using hm
      simp [hm, hmc, descriptorOf]

theorem parse_openapi_eq_specLoader (paths : List (String × List (String × JValue))) :
    parse_openapi paths = specLoader paths := by
  unfold parse_openapi specLoader
  have outer : ∀ (ps : List (String × List (String × JValue))) (acc : List Endpoint),
      ps.foldl (fun acc pm =>
        pm.2.foldl (fun acc2 md =>
          if !(HTTP_METHODS.contains md.1.toLower) then acc2
          else
            match md.2 with
            | JValue.obj fields =>
                acc2 ++ [{ method := md.1.toUpper
                           path := pm.1
                           operation_id := (jGet fields "operationId").getD (JValue.str "")
                           deprecated := jTruthy ((jGet fields "deprecated").getD (JValue.bool false)) }]
            | _ => acc2) acc) acc
      = acc ++ ps.flatMap (fun pm => pm.2.filterMap (descriptorOf pm.1)) := by
    intro ps
    induction ps with
    | nil => intro acc; simp
    | cons pm ps ih =>
      intro acc
      simp only [List.foldl_cons, List.flatMap_cons]
      rw [inner_foldl_eq pm.1, ih, List.append_assoc]
  simpa using outer paths []

/-! ### Lemmas about classification and aggregation -/

theorem computeCoverage_active (eps : List Endpoint) (impl : List String) :
    (computeCoverage eps impl).active =
      (eps.filter (fun ep => !ep.deprecated)).filter
        (fun ep => !(EXCLUDED_PATHS.contains ep.path)) := rfl

theorem computeCoverage_covered (eps : List Endpoint) (impl : List String) :
    (computeCoverage eps impl).covered =
      (computeCoverage eps impl).active.filter (fun ep => match_endpoint ep.path impl) := rfl

theorem computeCoverage_missing (eps : List Endpoint) (impl : List String) :
    (computeCoverage eps impl).missing =
      (computeCoverage eps impl).active.filter (fun ep => !(match_endpoint ep.path impl)) := rfl

theorem computeCoverage_totalActive (eps : List Endpoint) (impl : List String) :
    (computeCoverage eps impl).totalActive = (computeCoverage eps impl).active.length := rfl

theorem computeCoverage_coveredCount (eps : List Endpoint) (impl : List String) :
    (computeCoverage eps impl).coveredCount = (computeCoverage eps impl).covered.length := rfl

theorem computeCoverage_pct (eps : List Endpoint) (impl : List String) :
    (computeCoverage eps impl).pct =
      if (computeCoverage eps impl).totalActive ≠ 0 then
        ((computeCoverage eps impl).coveredCount : ℚ) /
          ((computeCoverage eps impl).totalActive : ℚ) * 100
      else 0 := rfl

theorem coveredCount_le_totalActive (eps : List Endpoint) (impl : List String) :
    (computeCoverage eps impl).coveredCount ≤ (computeCoverage eps impl).totalActive :=
  List.length_filter_le _ _

theorem pct_nonneg (eps : List Endpoint) (impl : List String) :
    0 ≤ (computeCoverage eps impl).pct := by
  rw [computeCoverage_pct]
  split
  · positivity
  · exact le_refl 0

theorem pct_le_100 (eps : List Endpoint) (impl : List String) :
    (computeCoverage eps impl).pct ≤ 100 := by
  rw [computeCoverage_pct]
  split
  · rename_i h
    have hc := coveredCount_le_totalActive eps impl
    have ht : (0 : ℚ) < ((computeCoverage eps impl).totalActive : ℚ) := by
      exact_mod_cast Nat.pos_of_ne_zero h
    rw [div_mul_eq_mul_div, div_le_iff₀ ht]
    have hcq : ((computeCoverage eps impl).coveredCount : ℚ) ≤
        ((computeCoverage eps impl).totalActive : ℚ) := by exact_mod_cast hc
    nlinarith
  · norm_num

theorem mem_active_not_deprecated {eps : List Endpoint} {impl : List String} {e : Endpoint}
    (h : e ∈ (computeCoverage eps impl).active) : e.deprecated = false := by
  rw [computeCoverage_active] at h
  have h2 := (List.mem_filter.mp (List.mem_filter.mp h).1).2
  simpa using h2

theorem mem_active_not_excluded {eps : List Endpoint} {impl : List String} {e : Endpoint}
    (h : e ∈ (computeCoverage eps impl).active) : e.path ∉ EXCLUDED_PATHS := by
  rw [computeCoverage_active] at h
  have h2 := (List.mem_filter.mp h).2
  simpa using h2

theorem mem_covered_active {eps : List Endpoint} {impl : List String} {e : Endpoint}
    (h : e ∈ (computeCoverage eps impl).covered) : e ∈ (computeCoverage eps impl).active := by
  rw [computeCoverage_covered] at h
  exact (List.mem_filter.mp h).1

theorem mem_missing_active {eps : List Endpoint} {impl : List String} {e : Endpoint}
    (h : e ∈ (computeCoverage eps impl).missing) : e ∈ (computeCoverage eps impl).active := by
  rw [computeCoverage_missing] at h
  exact (List.mem_filter.mp h).1

/-! ### Claims -/

/-- C1, counterexample: the claim says the fallback pattern's placeholder
matches *any non-slash segment value*, so `/v1/voices/\x7bvoice_id\x7d`
would be covered by implemented `/v1/voices/abc`; the code's pattern
requires a brace-delimited candidate segment and classifies it as not
covered. -/
theorem C1_structural_wildcard_counterexample :
    ("/v1/voices/{voice_id}" ∉ (["/v1/voices/abc"] : List String)) ∧
    specStructuralCovered "/v1/voices/{voice_id}" ["/v1/voices/abc"] = true ∧
    match_endpoint "/v1/voices/{voice_id}" ["/v1/voices/abc"] = false := by
  refine ⟨by decide, by decide, by decide⟩

/-- C1 (amended): for a descriptor path with no exact match, the fallback
builds the token pattern `templateToks` — each region from a `\x7b` to the
first later `\x7d` (body arbitrary, `\x7b\x7d` included) becomes the
wildcard `lit \x7b, [^}]+, lit \x7d`, i.e. it matches only a brace-delimited
candidate region: a literal `\x7b`, one or more characters other than
`\x7d` (slashes permitted), then `\x7d`; every other character matches
literally — and the descriptor is covered iff some member of the
implemented set matches this pattern anchored at both ends (Python `$`
also accepts a match ending just before one trailing newline). -/
theorem C1_structural_fallback_amended (t : String) (impl : List String) (h : t ∉ impl) :
    match_endpoint t impl = impl.any (fun p => pyAnchMatch (templateToks t.data) p.data) := by
  rw [match_endpoint_spec]
  have hc : impl.contains t = false := by simpa using h
  rw [hc, Bool.false_or]

theorem C1_structural_fallback_amended_witness :
    match_endpoint "/v1/voices/{voice_id}" ["/v1/voices/{id}"] =
      (["/v1/voices/{id}"] : List String).any
        (fun p => pyAnchMatch (templateToks "/v1/voices/{voice_id}".data) p.data) :=
  C1_structural_fallback_amended "/v1/voices/{voice_id}" ["/v1/voices/{id}"] (by decide)

/-- C2: structural matching is placeholder-name-agnostic — a descriptor
`/v1/voices/\x7bvoice_id\x7d` is classified covered when the implemented
set is `\x7b/v1/voices/\x7bid\x7d\x7d`, and classified missing when the
implemented set is `\x7b/v1/voices/fixed-value\x7d`. -/
theorem C2_placeholder_name_agnostic :
    (computeCoverage [⟨"GET", "/v1/voices/{voice_id}", JValue.str "", false⟩]
        ["/v1/voices/{id}"]).covered =
      [⟨"GET", "/v1/voices/{voice_id}", JValue.str "", false⟩] ∧
    (computeCoverage [⟨"GET", "/v1/voices/{voice_id}", JValue.str "", false⟩]
        ["/v1/voices/fixed-value"]).covered = [] ∧
    (computeCoverage [⟨"GET", "/v1/voices/{voice_id}", JValue.str "", false⟩]
        ["/v1/voices/fixed-value"]).missing =
      [⟨"GET", "/v1/voices/{voice_id}", JValue.str "", false⟩] := by
  refine ⟨rfl, rfl, rfl⟩

/-- C3, counterexample: the claim says the descriptor path is compared
after query-string stripping, so descriptor `/v1/history?page=2` with
implemented set `\x7b/v1/history\x7d` would be covered; the code applies no
normalization to the descriptor path and classifies it as missing. -/
theorem C3_exact_match_counterexample :
    normalise_path "/v1/history?page=2" = "/v1/history" ∧
    ("/v1/history" ∈ (["/v1/history"] : List String)) ∧
    match_endpoint "/v1/history?page=2" ["/v1/history"] = false ∧
    (computeCoverage [⟨"GET", "/v1/history?page=2", JValue.str "", false⟩]
        ["/v1/history"]).covered = [] := by
  refine ⟨by decide, by decide, by decide, rfl⟩

/-- C3 (amended): the normalization applied to the descriptor's path
template is the identity (`normalise_openapi_path` strips nothing); a
descriptor whose path template itself is literally a member of the
implemented set is classified covered; and an implementation path extracted
verbatim with no query string is left unchanged by the scanner's
normalization, so an identical specification path matches it exactly. -/
theorem C3_exact_match_amended (p : String) (impl : List String) :
    normalise_openapi_path p = p ∧
    ('?' ∉ p.data → normalise_path p = p) ∧
    (p ∈ impl → match_endpoint p impl = true) := by
  refine ⟨rfl, ?_, ?_⟩
  · intro hq
    show String.mk (p.data.takeWhile fun c => c != '?') = p
    have ht : p.data.takeWhile (fun c => c != '?') = p.data :=
      List.takeWhile_eq_self_iff.mpr (fun x hx => by
        have : x ≠ '?' := fun hxe => hq (hxe ▸ hx)
        simpa using this)
    rw [ht]
  · intro hmem
    rw [match_endpoint_spec]
    have hc : impl.contains p = true := by simpa using hmem
    rw [hc, Bool.true_or]

theorem C3_exact_match_amended_witness :
    normalise_openapi_path "/v1/models" = "/v1/models" ∧
    normalise_path "/v1/models" = "/v1/models" ∧
    match_endpoint "/v1/models" ["/v1/models"] = true :=
  ⟨(C3_exact_match_amended "/v1/models" ["/v1/models"]).1,
   (C3_exact_match_amended "/v1/models" ["/v1/models"]).2.1 (by decide),
   (C3_exact_match_amended "/v1/models" ["/v1/models"]).2.2 (by decide)⟩

/-- C4, counterexample: the claim says every scanned path begins with
`/v1/`; the scanner's guard is `startswith("/v")`, so a call-site literal
`/v2/billing` (no placeholder, not beginning with `/v1/`) is added. -/
theorem C4_scan_prefix_counterexample :
    scan_services [("billing.rs", "self.client.get(\"/v2/billing\")")] = ["/v2/billing"] ∧
    pyStartsWith "/v2/billing" "/v1/" = false := by
  refine ⟨by decide, by decide⟩

/-- C4 (amended): every string in the set returned by the scan begins with
`/v` (the code-level guard; doc-comment paths begin `/v` + digit + `/`) and
contains no `?` or anything after it; a literal with no placeholder that
does not begin with `/v` is never added. -/
theorem C4_scan_invariant_amended (files : List (String × String)) (s : String)
    (h : s ∈ scan_services files) :
    pyStartsWith s "/v" = true ∧ '?' ∉ s.data :=
  scan_services_good files s h

theorem C4_scan_invariant_amended_witness :
    pyStartsWith "/v1/models" "/v" = true ∧ '?' ∉ "/v1/models".data :=
  C4_scan_invariant_amended [("models.rs", "self.client.get(\"/v1/models?page=2\")")]
    "/v1/models" (by decide)

/-- C5: the loader produces a descriptor exactly for each (path, method)
pair whose method key is in the HTTP-verb enumeration (case-insensitively)
and whose operation value is a structured object; any other key yields no
descriptor; the method is upper-cased, `operationId` defaults to the empty
string, `deprecated` defaults to false and is coerced to boolean. -/
theorem C5_spec_loader (paths : List (String × List (String × JValue))) :
    parse_openapi paths = specLoader paths :=
  parse_openapi_eq_specLoader paths

/-- C6: deprecated descriptors are excluded from the covered/missing
classification (every classified descriptor has `deprecated = false`), and
removing the deprecated descriptors beforehand changes neither the
classification nor the counts nor the percentage — so deprecated
descriptors contribute to neither numerator nor denominator, even when a
matching implementation path exists. -/
theorem C6_deprecated_excluded (eps : List Endpoint) (impl : List String) :
    (∀ e ∈ (computeCoverage eps impl).covered, e.deprecated = false) ∧
    (∀ e ∈ (computeCoverage eps impl).missing, e.deprecated = false) ∧
    (computeCoverage (eps.filter fun e => !e.deprecated) impl).covered =
      (computeCoverage eps impl).covered ∧
    (computeCoverage (eps.filter fun e => !e.deprecated) impl).missing =
      (computeCoverage eps impl).missing ∧
    (computeCoverage (eps.filter fun e => !e.deprecated) impl).totalActive =
      (computeCoverage eps impl).totalActive ∧
    (computeCoverage (eps.filter fun e => !e.deprecated) impl).coveredCount =
      (computeCoverage eps impl).coveredCount ∧
    (computeCoverage (eps.filter fun e => !e.deprecated) impl).pct =
      (computeCoverage eps impl).pct := by
  have hact : (computeCoverage (eps.filter fun e => !e.deprecated) impl).active =
      (computeCoverage eps impl).active := by
    rw [computeCoverage_active, computeCoverage_active, List.filter_filter]
    simp
  have hcov : (computeCoverage (eps.filter fun e => !e.deprecated) impl).covered =
      (computeCoverage eps impl).covered := by
    rw [computeCoverage_covered, computeCoverage_covered, hact]
  have hmis : (computeCoverage (eps.filter fun e => !e.deprecated) impl).missing =
      (computeCoverage eps impl).missing := by
    rw [computeCoverage_missing, computeCoverage_missing, hact]
  have htot : (computeCoverage (eps.filter fun e => !e.deprecated) impl).totalActive =
      (computeCoverage eps impl).totalActive := by
    rw [computeCoverage_totalActive, computeCoverage_totalActive, hact]
  have hcnt : (computeCoverage (eps.filter fun e => !e.deprecated) impl).coveredCount =
      (computeCoverage eps impl).coveredCount := by
    rw [computeCoverage_coveredCount, computeCoverage_coveredCount, hcov]
  refine ⟨?_, ?_, hcov, hmis, htot, hcnt, ?_⟩
  · exact fun e he => mem_active_not_deprecated (mem_covered_active he)
  · exact fun e he => mem_active_not_deprecated (mem_missing_active he)
  · rw [computeCoverage_pct, computeCoverage_pct, htot, hcnt]

theorem C6_deprecated_excluded_witness :
    (⟨"GET", "/v1/models", JValue.str "", false⟩ : Endpoint).deprecated = false ∧
    (computeCoverage (([⟨"DELETE", "/v1/old", JValue.str "", true⟩,
        ⟨"GET", "/v1/models", JValue.str "", false⟩] :
          List Endpoint).filter fun e => !e.deprecated) ["/v1/models", "/v1/old"]).pct =
      (computeCoverage [⟨"DELETE", "/v1/old", JValue.str "", true⟩,
        ⟨"GET", "/v1/models", JValue.str "", false⟩] ["/v1/models", "/v1/old"]).pct := by
  have h := C6_deprecated_excluded
    [⟨"DELETE", "/v1/old", JValue.str "", true⟩, ⟨"GET", "/v1/models", JValue.str "", false⟩]
    ["/v1/models", "/v1/old"]
  refine ⟨h.1 _ ?_, h.2.2.2.2.2.2⟩
  have hcov : (computeCoverage [⟨"DELETE", "/v1/old", JValue.str "", true⟩,
      ⟨"GET", "/v1/models", JValue.str "", false⟩] ["/v1/models", "/v1/old"]).covered =
      [⟨"GET", "/v1/models", JValue.str "", false⟩] := rfl
  rw [hcov]
  exact List.mem_singleton.mpr rfl

/-- C7: the percentage equals covered count over active count times 100,
guarded so that an empty active set yields 0 instead of a division by
zero; the result always lies between 0 and 100. -/
theorem C7_percentage_guarded (eps : List Endpoint) (impl : List String) :
    (computeCoverage eps impl).pct =
      (if (computeCoverage eps impl).totalActive = 0 then 0
       else ((computeCoverage eps impl).coveredCount : ℚ) /
         ((computeCoverage eps impl).totalActive : ℚ) * 100) ∧
    0 ≤ (computeCoverage eps impl).pct ∧ (computeCoverage eps impl).pct ≤ 100 := by
  refine ⟨?_, pct_nonneg eps impl, pct_le_100 eps impl⟩
  rw [computeCoverage_pct]
  by_cases h : (computeCoverage eps impl).totalActive = 0 <;> simp [h]

/-- C8: the run fails (exit status 1, after the report) iff the percentage
is strictly below the threshold; when the threshold equals the percentage
the run succeeds; and with the default threshold 0 the run always succeeds
(the percentage is never negative). -/
theorem C8_threshold_gate (eps : List Endpoint) (impl : List String) (threshold : ℚ) :
    (mainExitCode eps impl threshold = 1 ↔ (computeCoverage eps impl).pct < threshold) ∧
    mainExitCode eps impl ((computeCoverage eps impl).pct) = 0 ∧
    mainExitCode eps impl 0 = 0 := by
  unfold mainExitCode
  refine ⟨?_, ?_, ?_⟩
  · by_cases h : (computeCoverage eps impl).pct < threshold <;> simp [h]
  · rw [if_neg (lt_irrefl _)]
  · rw [if_neg (not_lt.mpr (pct_nonneg eps impl))]

/-- C9: a descriptor whose path is in the excluded utility-path set
(`/docs`) is removed before matching and never appears in either the
covered or the missing output. -/
theorem C9_excluded_paths (eps : List Endpoint) (impl : List String) :
    (∀ e ∈ (computeCoverage eps impl).covered, e.path ∉ EXCLUDED_PATHS) ∧
    (∀ e ∈ (computeCoverage eps impl).missing, e.path ∉ EXCLUDED_PATHS) :=
  ⟨fun _ he => mem_active_not_excluded (mem_covered_active he),
   fun _ he => mem_active_not_excluded (mem_missing_active he)⟩

theorem C9_excluded_paths_witness :
    (⟨"GET", "/v1/models", JValue.str "", false⟩ : Endpoint).path ∉ EXCLUDED_PATHS := by
  have h := C9_excluded_paths
    [⟨"GET", "/docs", JValue.str "", false⟩, ⟨"GET", "/v1/models", JValue.str "", false⟩]
    ["/v1/models"]
  refine h.1 _ ?_
  have hcov : (computeCoverage [⟨"GET", "/docs", JValue.str "", false⟩,
      ⟨"GET", "/v1/models", JValue.str "", false⟩] ["/v1/models"]).covered =
      [⟨"GET", "/v1/models", JValue.str "", false⟩] := rfl
  rw [hcov]
  exact List.mem_singleton.mpr rfl

/-- C10: the classification is HTTP-method-insensitive — any two active
descriptors with the same path template are classified identically,
whatever their methods, because `match_endpoint` only looks at the path. -/
theorem C10_method_insensitive (eps : List Endpoint) (impl : List String)
    (e1 e2 : Endpoint) (h1 : e1 ∈ (computeCoverage eps impl).active)
    (h2 : e2 ∈ (computeCoverage eps impl).active) (hp : e1.path = e2.path) :
    ((e1 ∈ (computeCoverage eps impl).covered) ↔ (e2 ∈ (computeCoverage eps impl).covered)) ∧
    ((e1 ∈ (computeCoverage eps impl).missing) ↔ (e2 ∈ (computeCoverage eps impl).missing)) := by
  constructor
  · rw [computeCoverage_covered, List.mem_filter, List.mem_filter, hp]
    simp [h1, h2]
  · rw [computeCoverage_missing, List.mem_filter, List.mem_filter, hp]
    simp [h1, h2]

theorem C10_method_insensitive_witness :
    ((⟨"GET", "/v1/models", JValue.str "", false⟩ : Endpoint) ∈
        (computeCoverage [⟨"GET", "/v1/models", JValue.str "", false⟩,
          ⟨"POST", "/v1/models", JValue.str "", false⟩] ["/v1/models"]).covered ↔
      (⟨"POST", "/v1/models", JValue.str "", false⟩ : Endpoint) ∈
        (computeCoverage [⟨"GET", "/v1/models", JValue.str "", false⟩,
          ⟨"POST", "/v1/models", JValue.str "", false⟩] ["/v1/models"]).covered) ∧
    ((⟨"GET", "/v1/models", JValue.str "", false⟩ : Endpoint) ∈
        (computeCoverage [⟨"GET", "/v1/models", JValue.str "", false⟩,
          ⟨"POST", "/v1/models", JValue.str "", false⟩] ["/v1/models"]).missing ↔
      (⟨"POST", "/v1/models", JValue.str "", false⟩ : Endpoint) ∈
        (computeCoverage [⟨"GET", "/v1/models", JValue.str "", false⟩,
          ⟨"POST", "/v1/models", JValue.str "", false⟩] ["/v1/models"]).missing) := by
  have hact : (computeCoverage [⟨"GET", "/v1/models", JValue.str "", false⟩,
      ⟨"POST", "/v1/models", JValue.str "", false⟩] ["/v1/models"]).active =
      [⟨"GET", "/v1/models", JValue.str "", false⟩,
       ⟨"POST", "/v1/models", JValue.str "", false⟩] := rfl
  refine C10_method_insensitive _ _ _ _ ?_ ?_ rfl
  · rw [hact]; exact List.mem_cons_self _ _
  · rw [hact]; exact List.mem_cons_of_mem _ (List.mem_singleton.mpr rfl)

end CheckCoverage
